import Mathlib

/-!
Verification of the scrape-retry-aggregation subsystem of `davediv/repotrend`.

This file shallowly embeds the TypeScript sources under `src/` into Lean:

* `src/lib/scraper/parser.ts` — trending-page parsing (`parseTrendingPage`,
  `parseArticle`, `parseFormattedNumber`, `parseLanguageColor`, ...);
* `src/lib/scraper/persistence.ts` — `persistRepos`;
* `src/lib/scraper/pipeline.ts` — `runScrapePipeline`;
* `src/lib/scraper/retry.ts` — `runScrapeWithRetry`;
* `src/lib/format.ts` — `applyPercentages`, `consecutiveStreak`,
  `sanitizeHexColor`.

Modelling conventions:

* JavaScript numbers are modelled exactly: integer-valued quantities as
  `ℕ`/`ℤ`, fractional intermediate values as `ℚ` (the double-precision
  rounding of the original cannot change any result proved here: all
  concrete values involved are far below the precision limit), and the JS
  `NaN` outcome of `parseFloat`/`Math.round` as `Option.none`.
* JavaScript strings are modelled as `String`/`List Char`; JS `trim`,
  `split` and the concrete regular expressions of the source are embedded
  as explicit recursive functions on `List Char`.
* The black-box HTML query library (`node-html-parser`) is abstracted:
  a page of markup is represented by the list of `article.Box-row`
  elements the library would extract from it, and each element by the
  query results the parser actually reads (`Article` below).  The empty
  markup string yields the empty element list.
* Calendar dates (`YYYY-MM-DD` strings in the source) are modelled as
  integers (day numbers).  Lexicographic comparison of such strings agrees
  with chronological order, and `previousDay` is integer predecessor.
* Exceptions are modelled with `Except String`; external effects (D1
  database, KV store, network) are passed in explicitly as oracle values
  and recorded effects.
-/

/-! ## Character and string primitives (JS `trim`, `split`, digits) -/

/-- Numeric value of a decimal digit character. -/
def digitVal (c : Char) : ℕ := c.toNat - '0'.toNat

/-- Value of a list of decimal digit characters read in base 10. -/
def digitsVal (ds : List Char) : ℕ := ds.foldl (fun a c => a * 10 + digitVal c) 0

/-- Hexadecimal digit test, `[0-9a-fA-F]` of the source regexes. -/
def isHexDigit (c : Char) : Bool :=
  c.isDigit || ('a' ≤ c && c ≤ 'f') || ('A' ≤ c && c ≤ 'F')

/-- Digit-or-dot test, the class `[0-9.]` used by `parseFormattedNumber`. -/
def isDigitOrDot (c : Char) : Bool := c.isDigit || c == '.'

/-- JS `String.prototype.trim` on a character list. -/
def jsTrim (cs : List Char) : List Char :=
  ((cs.dropWhile Char.isWhitespace).reverse.dropWhile Char.isWhitespace).reverse

/-- Auxiliary loop for `splitOnChar`. -/
def splitOnCharAux (sep : Char) : List Char → List Char → List (List Char)
  | [], acc => [acc.reverse]
  | c :: cs, acc =>
    if c == sep then acc.reverse :: splitOnCharAux sep cs []
    else splitOnCharAux sep cs (c :: acc)

/-- JS `String.prototype.split` with a single-character separator. -/
def splitOnChar (sep : Char) (cs : List Char) : List (List Char) :=
  splitOnCharAux sep cs []

/-! ## `parseFormattedNumber` (src/lib/scraper/parser.ts lines 146-159) -/

/-- JS `parseFloat` on a sign-free input: value of the longest prefix of
the form `digits [ '.' digits ]`; `none` models `NaN` (no such nonempty
prefix).  Exponent notation is not modelled (no input considered here
contains one). -/
def parseUnsignedFloat (cs : List Char) : Option ℚ :=
  let intPart := cs.takeWhile Char.isDigit
  let rest := cs.drop intPart.length
  let fracPart :=
    match rest with
    | '.' :: tl => tl.takeWhile Char.isDigit
    | _ => []
  if intPart.isEmpty && fracPart.isEmpty then none
  else some ((digitsVal intPart : ℚ) + (digitsVal fracPart : ℚ) / (10 : ℚ) ^ fracPart.length)

/-- JS `parseFloat`: leading whitespace skipped, then an optional sign,
then the longest float prefix; `none` models `NaN`. -/
def jsParseFloat (cs : List Char) : Option ℚ :=
  match cs.dropWhile Char.isWhitespace with
  | '-' :: tl => (parseUnsignedFloat tl).map (fun q => -q)
  | '+' :: tl => parseUnsignedFloat tl
  | other => parseUnsignedFloat other

/-- JS `Math.round`: round half toward positive infinity. -/
def jsRound (q : ℚ) : ℤ := ⌊q + 1 / 2⌋

/-- JS `parseInt(s, 10)` on a sign-free input: value of the leading digit
run, `none` (`NaN`) when there is none. -/
def jsParseIntDigits (cs : List Char) : Option ℕ :=
  let ds := cs.takeWhile Char.isDigit
  if ds.isEmpty then none else some (digitsVal ds)

/-- Test for the source regex `^([\d.]+)k$` (case-insensitive `k`): the
whole string is one or more digits/dots followed by a final `k`/`K`. -/
def kSuffixNumeric (cs : List Char) : Bool :=
  match cs.getLast? with
  | some c => (c == 'k' || c == 'K') && !cs.dropLast.isEmpty && cs.dropLast.all isDigitOrDot
  | none => false

/-- Shared fallback branch of `parseFormattedNumber`: strip every
character other than digits and dots, then `parseInt`, defaulting to 0. -/
def cleanedIntValue (cs : List Char) : Option ℤ :=
  match jsParseIntDigits (cs.filter isDigitOrDot) with
  | none => some 0
  | some v => some (v : ℤ)

/-- Embedding of `parseFormattedNumber` from `parser.ts` on the trimmed
character list.  `none` models a `NaN` return value. -/
def parseFormattedNumberChars (cs : List Char) : Option ℤ :=
  if kSuffixNumeric cs then
    (jsParseFloat cs.dropLast).map (fun q => jsRound (q * 1000))
  else
    cleanedIntValue cs

/-- `parseFormattedNumber(raw)` from `parser.ts`: trim, `k`-suffix rule,
otherwise cleaned integer parse. -/
def parseFormattedNumber (raw : String) : Option ℤ :=
  parseFormattedNumberChars (jsTrim raw.toList)

/-- Formalisation of the claim C5 wording: "if the string ends in `k` or
`K` it parses the leading float, multiplies by 1000 and rounds to the
nearest integer ... defaulting to 0 when unparsable".  This differs from
the source, which requires the whole string to match `^[\d.]+[kK]$`. -/
def parseFormattedNumberClaimChars (cs : List Char) : Option ℤ :=
  if (match cs.getLast? with
      | some c => c == 'k' || c == 'K'
      | none => false) then
    match jsParseFloat cs with
    | some q => some (jsRound (q * 1000))
    | none => some 0
  else
    cleanedIntValue cs

/-- Claim C5's described parser, applied to the trimmed input. -/
def parseFormattedNumberClaim (raw : String) : Option ℤ :=
  parseFormattedNumberClaimChars (jsTrim raw.toList)

/-- Amended description of `parseFormattedNumber`: the `k` rule fires only
when the trimmed string consists of digits and dots followed by a final
`k`/`K`; the float value of that numeric body is scaled by 1000 and
rounded (a body with no digits propagates `NaN`); every other string is
stripped to digits/dots and its leading digit run parsed, defaulting
to 0.  Stated over the decomposition `body ++ [k]` of the reversed list. -/
def parseFormattedNumberAmendedChars (cs : List Char) : Option ℤ :=
  match cs.reverse with
  | k :: bodyRev =>
    if (k == 'k' || k == 'K') && !bodyRev.isEmpty && bodyRev.all isDigitOrDot then
      (jsParseFloat bodyRev.reverse).map (fun q => jsRound (q * 1000))
    else cleanedIntValue cs
  | [] => cleanedIntValue cs

/-- Amended form of claim C5, applied to the trimmed input. -/
def parseFormattedNumberAmended (raw : String) : Option ℤ :=
  parseFormattedNumberAmendedChars (jsTrim raw.toList)

/-! ## Trending-page parser (src/lib/scraper/parser.ts) -/

/-- One `article.Box-row` element of the trending page, abstracted to the
query results `parseArticle` reads from it.  `headingHref = none` models a
missing `h2 a` element, `some none` a link without `href`; `colorStyle`
likewise models the `span.repo-language-color` element and its `style`
attribute.  The text fields are the raw text contents of the respective
elements. -/
structure Article where
  headingHref : Option (Option String)
  descriptionText : Option String
  languageText : Option String
  colorStyle : Option (Option String)
  starsText : Option String
  forksText : Option String
  starsTodayText : Option String

/-- A page of markup, abstracted to the list of repository rows the
black-box DOM query (`querySelectorAll("article.Box-row")`) extracts from
it; the empty string yields `[]`. -/
abbrev Markup := List Article

/-- Parsed representation of a single trending repository
(`ParsedRepo` of parser.ts).  Numeric fields are `Option ℤ`, with `none`
modelling a JavaScript `NaN`. -/
structure ParsedRepo where
  repo_owner : String
  repo_name : String
  description : Option String
  language : Option String
  language_color : Option String
  total_stars : Option ℤ
  forks : Option ℤ
  stars_today : Option ℤ
deriving DecidableEq

/-- Strip an expected leading character sequence, returning the rest. -/
def stripLeading : List Char → List Char → Option (List Char)
  | [], cs => some cs
  | _ :: _, [] => none
  | p :: ps, c :: cs => if c = p then stripLeading ps cs else none

/-- Strip an expected leading character sequence case-insensitively (the
pattern is given in lowercase). -/
def stripLeadingCI : List Char → List Char → Option (List Char)
  | [], cs => some cs
  | _ :: _, [] => none
  | p :: ps, c :: cs => if c.toLower = p then stripLeadingCI ps cs else none

/-- `parseRepoName`: owner and name from the heading link's href of the
form `/owner/name`; a missing link, missing href, or fewer than two path
segments is a fatal error. -/
def parseRepoName (a : Article) : Except String (String × String) :=
  match a.headingHref with
  | none => .error "Failed to parse repo: missing heading link"
  | some none => .error "Failed to parse repo: heading link has no href"
  | some (some href) =>
    let stripped :=
      match href.toList with
      | '/' :: tl => tl
      | l => l
    match splitOnChar '/' stripped with
    | p0 :: p1 :: _ => .ok (String.mk p0, String.mk p1)
    | _ => .error ("Failed to parse repo name from href: " ++ href)

/-- `parseDescription`: optional text, blank-after-trim counts as absent. -/
def parseDescription (a : Article) : Option String :=
  match a.descriptionText with
  | none => none
  | some t =>
    let s := jsTrim t.toList
    if s.isEmpty then none else some (String.mk s)

/-- `parseLanguage`: optional text, blank-after-trim counts as absent. -/
def parseLanguage (a : Article) : Option String :=
  match a.languageText with
  | none => none
  | some t =>
    let s := jsTrim t.toList
    if s.isEmpty then none else some (String.mk s)

/-- Attempt of the regex `background-color:\s*(#[0-9a-fA-F]{3,6})` at the
start of the input; returns the captured hex digits (without `#`). -/
def bgColorAt (cs : List Char) : Option (List Char) :=
  match stripLeading "background-color:".toList cs with
  | none => none
  | some rest =>
    match rest.dropWhile Char.isWhitespace with
    | '#' :: tl =>
      let hex := tl.takeWhile isHexDigit
      if 3 ≤ hex.length then some (hex.take 6) else none
    | _ => none

/-- Left-to-right scan of the regex
`background-color:\s*(#[0-9a-fA-F]{3,6})`, first match wins. -/
def matchBgColor : List Char → Option (List Char)
  | [] => none
  | c :: rest =>
    match bgColorAt (c :: rest) with
    | some hex => some hex
    | none => matchBgColor rest

/-- `parseLanguageColor`: hex color from the inline style of the language
dot, or `none`.  A missing `style` attribute is read as `""` (`?? ""`). -/
def parseLanguageColor (a : Article) : Option String :=
  match a.colorStyle with
  | none => none
  | some styleOpt =>
    match matchBgColor (styleOpt.getD "").toList with
    | none => none
    | some hex => some (String.mk ('#' :: hex))

/-- Word-character test, the `\w` class of the stars-today regex. -/
def isWordChar (c : Char) : Bool := c.isAlphanum || c == '_'

/-- Character class `[\d,.\w]` of the stars-today regex. -/
def isStarsTokenChar (c : Char) : Bool :=
  c.isDigit || c == ',' || c == '.' || isWordChar c

/-- Matches `\s+stars?\s+today` (case-insensitive) at the start of the
input.  The optional `s` is consumed when present: since `\s+` must follow
and `s` is not whitespace, this is equivalent to the backtracking regex. -/
def starsTodayTail (cs : List Char) : Bool :=
  let ws := cs.takeWhile Char.isWhitespace
  if ws.isEmpty then false
  else
    match stripLeadingCI ['s', 't', 'a', 'r'] (cs.drop ws.length) with
    | none => false
    | some rest =>
      let rest2 :=
        match rest with
        | c :: tl => if c.toLower = 's' then tl else rest
        | [] => rest
      let ws2 := rest2.takeWhile Char.isWhitespace
      if ws2.isEmpty then false
      else
        match stripLeadingCI ['t', 'o', 'd', 'a', 'y'] (rest2.drop ws2.length) with
        | some _ => true
        | none => false

/-- Left-to-right scan of the regex `([\d,.\w]+)\s+stars?\s+today`,
returning the captured numeric token of the first match.  Greedy token
runs need no backtracking: a non-maximal run would leave a token
character where `\s+` is required. -/
def findStarsToday : List Char → Option (List Char)
  | [] => none
  | c :: rest =>
    let run := (c :: rest).takeWhile isStarsTokenChar
    if !run.isEmpty && starsTodayTail ((c :: rest).drop run.length) then some run
    else findStarsToday rest

/-- `parseStars`: total stars from the stargazers link text, 0 when the
link is missing. -/
def parseStars (a : Article) : Option ℤ :=
  match a.starsText with
  | none => some 0
  | some t => parseFormattedNumberChars (jsTrim t.toList)

/-- `parseForks`: fork count from the forks link text, 0 when missing. -/
def parseForks (a : Article) : Option ℤ :=
  match a.forksText with
  | none => some 0
  | some t => parseFormattedNumberChars (jsTrim t.toList)

/-- `parseStarsToday`: the "N stars today" count from the float-right
span, 0 when the span or the pattern is missing. -/
def parseStarsToday (a : Article) : Option ℤ :=
  match a.starsTodayText with
  | none => some 0
  | some t =>
    match findStarsToday (jsTrim t.toList) with
    | none => some 0
    | some numTok => parseFormattedNumberChars (jsTrim numTok)

/-- `parseArticle`: a single row; only the identity extraction can fail. -/
def parseArticle (a : Article) : Except String ParsedRepo :=
  match parseRepoName a with
  | .error e => .error e
  | .ok (owner, name) =>
    .ok
      { repo_owner := owner
        repo_name := name
        description := parseDescription a
        language := parseLanguage a
        language_color := parseLanguageColor a
        total_stars := parseStars a
        forks := parseForks a
        stars_today := parseStarsToday a }

/-- JS `articles.map(parseArticle)` with exception propagation: the first
row failure aborts the whole parse. -/
def mapParseArticles : List Article → Except String (List ParsedRepo)
  | [] => .ok []
  | a :: rest =>
    match parseArticle a with
    | .error e => .error e
    | .ok r =>
      match mapParseArticles rest with
      | .error e => .error e
      | .ok rs => .ok (r :: rs)

/-- Error message thrown by `parseTrendingPage` for zero rows. -/
def noRepoRowsMessage : String :=
  "Failed to parse trending page: no repository rows found. The page structure may have changed."

/-- `parseTrendingPage`: fail fast on zero rows, else parse every row. -/
def parseTrendingPage (articles : Markup) : Except String (List ParsedRepo) :=
  if articles.isEmpty then .error noRepoRowsMessage
  else mapParseArticles articles

/-- An article is well-formed when its identity can be derived: the
heading link exists, has an href, and that href has at least two path
segments.  This is exactly the fatal-error-free condition of
`parseRepoName`. -/
def wellFormedArticle (a : Article) : Prop :=
  ∃ href p0 p1 rest,
    a.headingHref = some (some href) ∧
      splitOnChar '/'
          (match href.toList with
            | '/' :: tl => tl
            | l => l) =
        p0 :: p1 :: rest

/-! ## Hex colors (src/lib/format.ts lines 7-10) -/

/-- The regex `^#(?:[0-9a-fA-F]{3}|[0-9a-fA-F]{6})$`: `#` followed by
exactly 3 or exactly 6 hex digits. -/
def hexColorExact (s : String) : Bool :=
  match s.toList with
  | '#' :: ds => (ds.length == 3 || ds.length == 6) && ds.all isHexDigit
  | _ => false

/-- The pattern actually guaranteed by `parseLanguageColor`: `#` followed
by 3 to 6 hex digits. -/
def hexColorLoose (s : String) : Bool :=
  match s.toList with
  | '#' :: ds => (3 ≤ ds.length && ds.length ≤ 6) && ds.all isHexDigit
  | _ => false

/-- `sanitizeHexColor` from format.ts: `null` and `""` are falsy and give
`null`; otherwise the string must match the 3-or-6 hex regex. -/
def sanitizeHexColor (color : Option String) : Option String :=
  match color with
  | none => none
  | some s => if s = "" then none else if hexColorExact s then some s else none

/-! ## Language-distribution percentages (src/lib/format.ts lines 90-120) -/

/-- One grouped language bucket as queried from D1:
`{language, color, count}`. -/
structure LangCountRow where
  language : String
  color : String
  count : ℕ

/-- `LanguageDistribution` of format.ts: a bucket plus its percentage.
The percentage (a JS number equal to `tenths / 10`) is modelled in `ℚ`. -/
structure LanguageDistribution where
  language : String
  color : String
  count : ℕ
  percentage : ℚ

/-- Raw share of a bucket in integer tenths of a percent:
`(count / total) * 1000` of the source, computed exactly in `ℚ`. -/
def rawTenths (count total : ℕ) : ℚ := ((count : ℚ) / (total : ℚ)) * 1000

/-- `Math.floor(rawTenths)` of the source (the value is nonnegative). -/
def flooredTenths (count total : ℕ) : ℕ := (⌊rawTenths count total⌋).toNat

/-- Fractional remainder `rawTenths - flooredTenths` of a bucket. -/
def remTenths (count total : ℕ) : ℚ :=
  rawTenths count total - (⌊rawTenths count total⌋ : ℚ)

/-- Stable insertion of an `(index, remainder)` pair into a list sorted by
descending remainder: the new element goes after existing elements with a
greater-or-equal remainder, as in the stable JS
`sort((a, b) => b.remainder - a.remainder)`. -/
def insertRemDesc (x : ℕ × ℚ) : List (ℕ × ℚ) → List (ℕ × ℚ)
  | [] => [x]
  | y :: ys => if y.2 ≤ x.2 then x :: y :: ys else y :: insertRemDesc x ys

/-- Stable sort of `(index, remainder)` pairs by descending remainder. -/
def sortRemDesc (l : List (ℕ × ℚ)) : List (ℕ × ℚ) := l.foldr insertRemDesc []

/-- Indices of the buckets that receive one extra tenth: the distribution
loop of `applyPercentages` walks the index list sorted by descending
remainder and stops when the leftover (`1000` minus the floored tenths) is
exhausted, i.e. it increments exactly the first `leftover` sorted
indices. -/
def percGive (rows : List LangCountRow) (total : ℕ) : List ℕ :=
  ((sortRemDesc ((rows.map (fun r => remTenths r.count total)).enum)).take
      (1000 - (rows.map (fun r => flooredTenths r.count total)).sum)).map (fun p => p.1)

/-- `applyPercentages` of format.ts: floor each bucket's share in integer
tenths, then hand the leftover tenths (up to exactly 1000 total) one at a
time to the buckets with the largest fractional remainders (`percGive`). -/
def applyPercentages (rows : List LangCountRow) : List LanguageDistribution :=
  let total := (rows.map (fun r => r.count)).sum
  if total = 0 then []
  else
    rows.enum.map (fun p =>
      { language := p.2.language
        color := p.2.color
        count := p.2.count
        percentage :=
          ((flooredTenths p.2.count total +
              (if p.1 ∈ percGive rows total then 1 else 0) : ℕ) : ℚ) / 10 })

/-! ## Streaks (src/lib/format.ts lines 350-394 and 446-458) -/

/-- `previousDay` of format.ts on day numbers: the preceding calendar day. -/
def previousDay (d : ℤ) : ℤ := d - 1

/-- `consecutiveStreak` of format.ts: walk the descending-sorted
appearance dates, counting matches of the expected date and decrementing
it, stopping at the first date below the expected one. -/
def consecutiveStreak : List ℤ → ℤ → ℕ
  | [], _ => 0
  | d :: ds, expected =>
    if d = expected then consecutiveStreak ds (previousDay expected) + 1
    else if d < expected then 0
    else consecutiveStreak ds expected

/-- Per-repo streak assignment of `calculateStreaks`: `none` models a repo
with no fetched history rows (`datesByRepo.get` returned `undefined`),
which still gets streak 1; otherwise `Math.max(1, consecutiveStreak ...)`. -/
def repoStreak (dates : Option (List ℤ)) (date : ℤ) : ℕ :=
  match dates with
  | some ds => max 1 (consecutiveStreak ds date)
  | none => 1

/-! ## Persistence (src/lib/scraper/persistence.ts) -/

/-- Result of one statement of a D1 batch: a success flag and the
optional `meta.changes` count. -/
structure D1BatchResult where
  success : Bool
  changes : Option ℕ

/-- `persistRepos`: the D1 batch call is an oracle `batch` giving either
the per-statement results or a thrown error message.  The returned flag
records whether storage was touched (the batch was executed).  The
rows-written count sums `meta.changes ?? 0` over statements marked
successful; a batch-level exception is wrapped with the original
message. -/
def persistRepos (batch : Except String (List D1BatchResult)) (repos : List ParsedRepo)
    (date : String) : Except String ℕ × Bool :=
  if repos = [] then (.ok 0, false)
  else
    match batch with
    | .ok results =>
      (.ok (results.foldl (fun acc r => if r.success then acc + r.changes.getD 0 else acc) 0),
        true)
    | .error m => (.error ("D1 persistence failed: " ++ m), true)

/-! ## Pipeline (src/lib/scraper/pipeline.ts) -/

/-- Stage-error taxonomy of the pipeline. -/
inductive ScrapeErrorType
  | fetch_error
  | parse_error
  | persist_error
  | unknown_error
deriving DecidableEq

/-- `ScrapeResult` of pipeline.ts (`durationMs` is wall-clock time and is
not modelled). -/
structure ScrapeResult where
  success : Bool
  repoCount : ℕ
  rowsWritten : ℕ
  date : String
  error : Option String := none
  errorType : Option ScrapeErrorType := none
deriving DecidableEq

/-- Outcomes of the effectful collaborators of one pipeline run:
`delay` is the awaited `randomDelay()` (whose failure carries no stage
tag), `fetch` the fetcher, `enrich` the topics enricher, and `persist`
the D1 write.  `parseTrendingPage` is the real parser defined above. -/
structure PipelineStages where
  delay : Except String Unit
  fetch : Except String Markup
  enrich : List ParsedRepo → Except String (List ParsedRepo)
  persist : List ParsedRepo → Except String ℕ

/-- Best-effort enrichment of `runScrapePipeline`: on failure the error is
logged and the un-enriched records continue through. -/
def enrichOrKeep (st : PipelineStages) (repos : List ParsedRepo) : List ParsedRepo :=
  match st.enrich repos with
  | .ok r => r
  | .error _ => repos

/-- Failure result of `runScrapePipeline`'s outer catch. -/
def scrapeFailure (date : String) (m : String) (t : ScrapeErrorType) : ScrapeResult :=
  { success := false, repoCount := 0, rowsWritten := 0, date := date,
    error := some m, errorType := some t }

/-- `runScrapePipeline`: fetch → parse → enrich (best-effort) → persist,
with stage-scoped error tagging; an error raised outside the tagged
stages (here: the awaited delay) falls to the outer catch untagged and is
classified `unknown_error`. -/
def runScrapePipeline (st : PipelineStages) (date : String) : ScrapeResult :=
  match st.delay with
  | .error m => scrapeFailure date m .unknown_error
  | .ok _ =>
    match st.fetch with
    | .error m => scrapeFailure date m .fetch_error
    | .ok html =>
      match parseTrendingPage html with
      | .error m => scrapeFailure date m .parse_error
      | .ok repos0 =>
        let repos := enrichOrKeep st repos0
        match st.persist repos with
        | .error m => scrapeFailure date m .persist_error
        | .ok rows =>
          { success := true, repoCount := repos.length, rowsWritten := rows, date := date }

/-! ## Retry controller (src/lib/scraper/retry.ts) -/

/-- `MAX_RETRIES` of retry.ts. -/
def MAX_RETRIES : ℕ := 2

/-- Skip reasons of `RetryAwareScrapeResult`. -/
inductive SkipReason
  | already_has_data
  | max_retries_exceeded
deriving DecidableEq

/-- `RetryAwareScrapeResult` of retry.ts. -/
structure RetryAwareScrapeResult extends ScrapeResult where
  skipped : Bool
  skipReason : Option SkipReason := none
  attempt : Option ℕ := none
  recovered : Option Bool := none

/-- Effect of one controller run on the per-date KV retry counter. -/
inductive KVEffect
  | noop
  | cleared
  | set (n : ℕ)
deriving DecidableEq

/-- Full outcome of one controller run: the returned result, whether the
pipeline was invoked, and the KV counter effect. -/
structure RetryRunOutcome where
  result : RetryAwareScrapeResult
  ranPipeline : Bool
  kvEffect : KVEffect

/-- `runScrapeWithRetry` for date `D`, with the environment passed in
explicitly: `hasData` is the archive check for `D`, `retryCount` the
counter read from KV (a failed read is already folded to 0 by the
source's fail-open catch), and `pipelineResult` the outcome
`runScrapePipeline` would produce if invoked.  KV writes are recorded as
a `KVEffect` (their own failures are logged and swallowed by the
source). -/
def runScrapeWithRetry (hasData : Bool) (retryCount : ℕ) (pipelineResult : ScrapeResult)
    (date : String) : RetryRunOutcome :=
  if hasData then
    { result :=
        { success := true, repoCount := 0, rowsWritten := 0, date := date,
          skipped := true, skipReason := some .already_has_data }
      ranPipeline := false
      kvEffect := .noop }
  else
    let attempt := retryCount + 1
    if MAX_RETRIES ≤ retryCount then
      { result :=
          { success := false, repoCount := 0, rowsWritten := 0, date := date,
            error := some ("Max retries (2) exceeded for " ++ date),
            skipped := true, skipReason := some .max_retries_exceeded,
            attempt := some retryCount }
        ranPipeline := false
        kvEffect := .noop }
    else
      let res := pipelineResult
      let recovered := res.success && decide (0 < retryCount)
      { result :=
          { toScrapeResult := res, skipped := false, attempt := some attempt,
            recovered := some recovered }
        ranPipeline := true
        kvEffect :=
          if res.success then
            if 0 < retryCount then .cleared else .noop
          else .set attempt }

/-! ## Concrete fixtures used by the closed instantiations below -/

/-- A successful pipeline result fixture. -/
def sampleOkResult : ScrapeResult :=
  { success := true, repoCount := 25, rowsWritten := 25, date := "2026-02-15" }

/-- A failed pipeline result fixture. -/
def sampleFailResult : ScrapeResult :=
  { success := false, repoCount := 0, rowsWritten := 0, date := "2026-02-15",
    error := some "boom", errorType := some .fetch_error }

/-- A well-formed article fixture. -/
def sampleArticle : Article :=
  { headingHref := some (some "/PowerShell/PowerShell")
    descriptionText := some " A cross-platform automation tool. "
    languageText := some "C#"
    colorStyle := some (some "background-color: #178600")
    starsText := some " 51,595 "
    forksText := some " 7,789 "
    starsTodayText := some "13 stars today" }

/-- An article whose language dot carries a four-digit hex color. -/
def fourDigitColorArticle : Article :=
  { headingHref := some (some "/u/r")
    descriptionText := none
    languageText := none
    colorStyle := some (some "background-color: #abcd")
    starsText := none
    forksText := none
    starsTodayText := none }

/-- A parsed-repo fixture. -/
def sampleRepoFix : ParsedRepo :=
  { repo_owner := "u", repo_name := "r", description := none, language := none,
    language_color := none, total_stars := some 0, forks := some 0, stars_today := some 0 }

/-- The records `parseTrendingPage` extracts from `[sampleArticle]`. -/
def samplePipelineRepos : List ParsedRepo :=
  [{ repo_owner := "PowerShell", repo_name := "PowerShell",
     description := some "A cross-platform automation tool.", language := some "C#",
     language_color := some "#178600", total_stars := some 51595, forks := some 7789,
     stars_today := some 13 }]

/-- An all-stages-succeed pipeline environment fixture. -/
def samplePipelineStages : PipelineStages :=
  { delay := .ok (), fetch := .ok [sampleArticle], enrich := fun r => .ok r,
    persist := fun _ => .ok 25 }

/-- Three language buckets of count 1 each. -/
def threeEvenRows : List LangCountRow :=
  [{ language := "Rust", color := "#dea584", count := 1 },
   { language := "Go", color := "#00ADD8", count := 1 },
   { language := "Zig", color := "#ec915c", count := 1 }]

/-- C3: the retry controller runs the scrape pipeline if and only if the
archive has no row for the date and the retry counter is below the
maximum of 2; when the archive already has a row it returns a skipped
result with reason `already_has_data` and `success = true`, and when the
counter is at least 2 it returns a skipped result with reason
`max_retries_exceeded` and `success = false`, in both cases without
running the pipeline. -/
theorem retry_controller_gating (hasData : Bool) (c : ℕ) (pres : ScrapeResult) (date : String) :
    ((runScrapeWithRetry hasData c pres date).ranPipeline = true ↔ hasData = false ∧ c < 2) ∧
    (hasData = true →
      (runScrapeWithRetry hasData c pres date).result.skipped = true ∧
      (runScrapeWithRetry hasData c pres date).result.skipReason = some .already_has_data ∧
      (runScrapeWithRetry hasData c pres date).result.success = true) ∧
    (hasData = false → 2 ≤ c →
      (runScrapeWithRetry hasData c pres date).result.skipped = true ∧
      (runScrapeWithRetry hasData c pres date).result.skipReason = some .max_retries_exceeded ∧
      (runScrapeWithRetry hasData c pres date).result.success = false) := by
  cases hasData with
  | true => simp [runScrapeWithRetry]
  | false =>
    by_cases h2 : MAX_RETRIES ≤ c
    · simp [runScrapeWithRetry, h2]
      simp [MAX_RETRIES] at h2
      omega
    · simp [runScrapeWithRetry, h2]
      simp [MAX_RETRIES] at h2
      omega

/-- C9: when the pipeline runs (counter `c < 2`) and succeeds with prior
counter `c > 0`, the counter is cleared (deleted), the result is marked
`recovered = true`, and the reported attempt number is `c + 1`; on
pipeline failure the counter is persisted as `c + 1` and the result is
marked `recovered = false`. -/
theorem retry_controller_counter (c : ℕ) (pres : ScrapeResult) (date : String) (hc : c < 2) :
    (pres.success = true → 0 < c →
      (runScrapeWithRetry false c pres date).kvEffect = .cleared ∧
      (runScrapeWithRetry false c pres date).result.recovered = some true ∧
      (runScrapeWithRetry false c pres date).result.attempt = some (c + 1)) ∧
    (pres.success = false →
      (runScrapeWithRetry false c pres date).kvEffect = .set (c + 1) ∧
      (runScrapeWithRetry false c pres date).result.recovered = some false ∧
      (runScrapeWithRetry false c pres date).result.attempt = some (c + 1)) := by
  have h2 : ¬ MAX_RETRIES ≤ c := by simp [MAX_RETRIES]; omega
  constructor
  · intro hs hpos
    simp [runScrapeWithRetry, h2, hs, hpos]
  · intro hs
    simp [runScrapeWithRetry, h2, hs]

/-- Witness for C9 at counter 1 with a succeeding and a failing
pipeline. -/
theorem retry_controller_counter_witness :
    ((runScrapeWithRetry false 1 sampleOkResult "2026-02-15").kvEffect = .cleared ∧
      (runScrapeWithRetry false 1 sampleOkResult "2026-02-15").result.recovered = some true ∧
      (runScrapeWithRetry false 1 sampleOkResult "2026-02-15").result.attempt = some 2) ∧
    ((runScrapeWithRetry false 1 sampleFailResult "2026-02-15").kvEffect = .set 2 ∧
      (runScrapeWithRetry false 1 sampleFailResult "2026-02-15").result.recovered = some false ∧
      (runScrapeWithRetry false 1 sampleFailResult "2026-02-15").result.attempt = some 2) :=
  ⟨(retry_controller_counter 1 sampleOkResult "2026-02-15" (by decide)).1 rfl (by decide),
   (retry_controller_counter 1 sampleFailResult "2026-02-15" (by decide)).2 rfl⟩

/-- Witness for C3 at concrete inputs. -/
theorem retry_controller_gating_witness :
    ((runScrapeWithRetry true 0 sampleOkResult "2026-02-15").result.skipReason =
        some .already_has_data ∧
      (runScrapeWithRetry true 0 sampleOkResult "2026-02-15").result.success = true) ∧
    ((runScrapeWithRetry false 3 sampleOkResult "2026-02-15").result.skipReason =
        some .max_retries_exceeded ∧
      (runScrapeWithRetry false 3 sampleOkResult "2026-02-15").result.success = false) ∧
    (runScrapeWithRetry false 0 sampleOkResult "2026-02-15").ranPipeline = true := by
  refine ⟨?_, ?_, ?_⟩
  · have h := (retry_controller_gating true 0 sampleOkResult "2026-02-15").2.1 rfl
    exact ⟨h.2.1, h.2.2⟩
  · have h := (retry_controller_gating false 3 sampleOkResult "2026-02-15").2.2 rfl (by decide)
    exact ⟨h.2.1, h.2.2⟩
  · exact (retry_controller_gating false 0 sampleOkResult "2026-02-15").1.2 ⟨rfl, by decide⟩

/-- Helper: the accumulation loop of `persistRepos` sums `changes ?? 0`
over the statements marked successful. -/
theorem persist_foldl_filter_sum (results : List D1BatchResult) (acc : ℕ) :
    results.foldl (fun a r => if r.success then a + r.changes.getD 0 else a) acc =
      acc + ((results.filter (fun r => r.success)).map (fun r => r.changes.getD 0)).sum := by
  induction results generalizing acc with
  | nil => simp
  | cons r rs ih =>
    cases hr : r.success <;> simp [hr, ih] <;> omega

/-- C8: `persistRepos` returns 0 for an empty record list without
issuing any storage operation; otherwise it returns the sum of the
reported `changes` over exactly the batch statements marked successful
(failed statements contribute nothing, a missing changes count
contributes 0), and a batch-level exception is wrapped into an error
carrying the original message. -/
theorem persist_repos_spec (batch : Except String (List D1BatchResult))
    (repos : List ParsedRepo) (date : String) :
    (repos = [] → persistRepos batch repos date = (.ok 0, false)) ∧
    (repos ≠ [] → ∀ results, batch = .ok results →
      persistRepos batch repos date =
        (.ok ((results.filter (fun r => r.success)).map (fun r => r.changes.getD 0)).sum,
          true)) ∧
    (repos ≠ [] → ∀ m, batch = .error m →
      persistRepos batch repos date = (.error ("D1 persistence failed: " ++ m), true)) := by
  refine ⟨?_, ?_, ?_⟩
  · intro h; simp [persistRepos, h]
  · intro h results hb
    simp [persistRepos, h, hb, persist_foldl_filter_sum]
  · intro h m hb
    simp [persistRepos, h, hb]

/-- C7: each pipeline run produces a structured result (the embedding is
a total function, never a raw exception): a fetching-stage failure is
tagged `fetch_error`, a parsing-stage failure `parse_error`, a
persisting-stage failure `persist_error`, and a failure outside the
tagged stages `unknown_error`; when fetch, parse and persist succeed the
result has `success = true` for every enrichment outcome `st.enrich`
(enrichment failures are never promoted). -/
theorem pipeline_error_tagging (st : PipelineStages) (date : String) :
    (∀ m, st.delay = .error m →
      runScrapePipeline st date = scrapeFailure date m .unknown_error) ∧
    (∀ m, st.delay = .ok () → st.fetch = .error m →
      runScrapePipeline st date = scrapeFailure date m .fetch_error) ∧
    (∀ html m, st.delay = .ok () → st.fetch = .ok html →
      parseTrendingPage html = .error m →
      runScrapePipeline st date = scrapeFailure date m .parse_error) ∧
    (∀ html repos m, st.delay = .ok () → st.fetch = .ok html →
      parseTrendingPage html = .ok repos →
      st.persist (enrichOrKeep st repos) = .error m →
      runScrapePipeline st date = scrapeFailure date m .persist_error) ∧
    (∀ html repos n, st.delay = .ok () → st.fetch = .ok html →
      parseTrendingPage html = .ok repos →
      st.persist (enrichOrKeep st repos) = .ok n →
      runScrapePipeline st date =
        { success := true, repoCount := (enrichOrKeep st repos).length,
          rowsWritten := n, date := date }) := by
  refine ⟨?_, ?_, ?_, ?_, ?_⟩
  · intro m hm; simp [runScrapePipeline, hm]
  · intro m hd hm; simp [runScrapePipeline, hd, hm]
  · intro html m hd hf hp; simp [runScrapePipeline, hd, hf, hp]
  · intro html repos m hd hf hp hper; simp [runScrapePipeline, hd, hf, hp, hper]
  · intro html repos n hd hf hp hper; simp [runScrapePipeline, hd, hf, hp, hper]

/-- Witness for C7: a full successful run over `samplePipelineStages`. -/
theorem pipeline_error_tagging_witness :
    runScrapePipeline samplePipelineStages "2026-02-15" =
      { success := true, repoCount := 1, rowsWritten := 25, date := "2026-02-15" } := by
  have h := (pipeline_error_tagging samplePipelineStages "2026-02-15").2.2.2.2
      [sampleArticle] samplePipelineRepos 25 rfl rfl rfl rfl
  rw [h]
  rfl

/-- Witness for C8: an empty list and a partially failed batch. -/
theorem persist_repos_spec_witness :
    persistRepos (.error "disk") ([] : List ParsedRepo) "2026-02-15" = (.ok 0, false) ∧
    persistRepos
        (.ok [{ success := true, changes := some 1 }, { success := false, changes := some 5 },
          { success := true, changes := none }])
        [sampleRepoFix] "2026-02-15" = (.ok 1, true) := by
  constructor
  · exact (persist_repos_spec (.error "disk") [] "2026-02-15").1 rfl
  · have h := (persist_repos_spec
        (.ok [{ success := true, changes := some 1 }, { success := false, changes := some 5 },
          { success := true, changes := none }])
        [sampleRepoFix] "2026-02-15").2.1 (by simp) _ rfl
    rw [h]
    rfl

/-- Helper for C2: on a strictly descending list of dates bounded by the
expected date, `consecutiveStreak` computes exactly the length of the
maximal run `e, e-1, e-2, ...` contained in the list. -/
theorem consecutiveStreak_run (L : List ℤ) (e : ℤ) (hsort : L.Sorted (· > ·))
    (hle : ∀ x ∈ L, x ≤ e) :
    (∀ j : ℕ, j < consecutiveStreak L e → e - (j : ℤ) ∈ L) ∧
      (e - (consecutiveStreak L e : ℤ)) ∉ L := by
  induction L generalizing e with
  | nil => simp [consecutiveStreak]
  | cons d ds ih =>
    rw [List.sorted_cons] at hsort
    obtain ⟨hgt, hsort'⟩ := hsort
    by_cases hd : d = e
    · subst hd
      have hle' : ∀ x ∈ ds, x ≤ d - 1 := fun x hx => by
        have := hgt x hx; omega
      obtain ⟨ihmem, ihnot⟩ := ih (d - 1) hsort' hle'
      have hs : consecutiveStreak (d :: ds) d = consecutiveStreak ds (d - 1) + 1 := by
        simp [consecutiveStreak, previousDay]
      rw [hs]
      constructor
      · intro j hj
        cases j with
        | zero => simp
        | succ j' =>
          have hj' : j' < consecutiveStreak ds (d - 1) := by omega
          have := ihmem j' hj'
          have heq : d - ((j' + 1 : ℕ) : ℤ) = d - 1 - (j' : ℤ) := by push_cast; ring
          rw [heq]
          exact List.mem_cons_of_mem _ this
      · intro hmem
        have heq : d - ((consecutiveStreak ds (d - 1) + 1 : ℕ) : ℤ) =
            d - 1 - (consecutiveStreak ds (d - 1) : ℤ) := by push_cast; ring
        rw [heq] at hmem
        rcases List.mem_cons.mp hmem with h | h
        · omega
        · exact ihnot h
    · have hdlt : d < e := lt_of_le_of_ne (hle d (List.mem_cons_self d ds)) hd
      have hs : consecutiveStreak (d :: ds) e = 0 := by
        simp [consecutiveStreak, hd, hdlt]
      rw [hs]
      constructor
      · intro j hj; omega
      · intro hmem
        simp only [Nat.cast_zero, sub_zero] at hmem
        rcases List.mem_cons.mp hmem with h | h
        · omega
        · have := hgt _ h; omega

/-- C2: for a repo whose fetched appearance-date set is the descending
list `L` (dates within `[D-60, D]`), the computed streak is
`max 1 k` where `k` is the largest number such that
`D, D-1, ..., D-(k-1)` are all in `L` (first two conjuncts: all of
`D - j` for `j < k` are in `L`, and `D - k` is not, which characterises
the largest such `k` since the property is downward closed); a repo with
no fetched rows gets streak 1; and the three spec examples hold:
`{Feb 13, 14, 15}` at Feb 15 gives 3, `{Feb 15}` gives 1, and
`{Feb 12, 14, 15}` gives 2 (days numbered 12-15). -/
theorem streak_spec (L : List ℤ) (D : ℤ) (hsort : L.Sorted (· > ·))
    (hwin : ∀ x ∈ L, D - 60 ≤ x ∧ x ≤ D) :
    ((∀ j : ℕ, j < consecutiveStreak L D → D - (j : ℤ) ∈ L) ∧
      (D - (consecutiveStreak L D : ℤ)) ∉ L ∧
      repoStreak (some L) D = max 1 (consecutiveStreak L D)) ∧
    repoStreak none D = 1 ∧
    repoStreak (some [15, 14, 13]) 15 = 3 ∧
    repoStreak (some [15]) 15 = 1 ∧
    repoStreak (some [15, 14, 12]) 15 = 2 := by
  obtain ⟨h1, h2⟩ := consecutiveStreak_run L D hsort (fun x hx => (hwin x hx).2)
  exact ⟨⟨h1, h2, rfl⟩, rfl, by decide, by decide, by decide⟩

/-- Witness for C2 at the consecutive three-day example. -/
theorem streak_spec_witness :
    (15 - (consecutiveStreak [15, 14, 13] 15 : ℤ)) ∉ ([15, 14, 13] : List ℤ) ∧
    repoStreak (some [15, 14, 13]) 15 = max 1 (consecutiveStreak [15, 14, 13] 15) := by
  have h := (streak_spec [15, 14, 13] 15 (by decide) (by decide)).1
  exact ⟨h.2.1, h.2.2⟩

/-- Helper: a well-formed article parses successfully (only the identity
extraction of `parseRepoName` can fail). -/
theorem wellFormed_parseArticle_ok (a : Article) (h : wellFormedArticle a) :
    ∃ r, parseArticle a = .ok r := by
  obtain ⟨href, p0, p1, rest, hh, hs⟩ := h
  simp only [parseArticle, parseRepoName, hh]
  rw [hs]
  exact ⟨_, rfl⟩

/-- Helper: when every row parses, the row map returns exactly one
record per row. -/
theorem mapParseArticles_ok (l : List Article) (h : ∀ a ∈ l, ∃ r, parseArticle a = .ok r) :
    ∃ rs, mapParseArticles l = .ok rs ∧ rs.length = l.length := by
  induction l with
  | nil => exact ⟨[], rfl, rfl⟩
  | cons a as ih =>
    obtain ⟨r, hr⟩ := h a (List.mem_cons_self a as)
    obtain ⟨rs, hrs, hlen⟩ := ih (fun b hb => h b (List.mem_cons_of_mem _ hb))
    exact ⟨r :: rs, by simp [mapParseArticles, hr, hrs], by simp [hlen]⟩

/-- C6 (amended): for markup with at least one recognizable row, all
rows well-formed, `parseTrendingPage` returns exactly one record per
row; for markup with zero rows (including the empty string, whose
black-box query yields no rows) it fails with an error whose message is
"Failed to parse trending page: no repository rows found. The page
structure may have changed." — which contains the phrase
"no repository rows found" — rather than returning an empty list. -/
theorem parse_rows_spec (articles : Markup) :
    (articles ≠ [] → (∀ a ∈ articles, wellFormedArticle a) →
      ∃ rs, parseTrendingPage articles = .ok rs ∧ rs.length = articles.length) ∧
    (articles = [] → parseTrendingPage articles = .error noRepoRowsMessage) ∧
    (∃ pre post, noRepoRowsMessage = pre ++ "no repository rows found" ++ post) := by
  refine ⟨?_, ?_,
    ⟨"Failed to parse trending page: ", ". The page structure may have changed.", by decide⟩⟩
  · intro hne hwf
    obtain ⟨rs, hrs, hlen⟩ := mapParseArticles_ok articles
      (fun a ha => wellFormed_parseArticle_ok a (hwf a ha))
    refine ⟨rs, ?_, hlen⟩
    rw [parseTrendingPage, if_neg (by simpa using hne)]
    exact hrs
  · intro he; subst he; rfl

/-- Witness for C6 on a single well-formed article. -/
theorem parse_rows_spec_witness :
    ∃ rs, parseTrendingPage [sampleArticle] = .ok rs ∧ rs.length = 1 := by
  have h := (parse_rows_spec [sampleArticle]).1 (by simp)
    (by
      intro a ha
      rw [List.mem_singleton] at ha
      subst ha
      exact ⟨"/PowerShell/PowerShell", "PowerShell".toList, "PowerShell".toList, [], rfl, by decide⟩)
  simpa using h

/-- Counterexample for C6 as stated: the zero-row error message is not
the exact string "no repository rows found" claimed by the spec; it is
the longer message `noRepoRowsMessage` (which contains that phrase). -/
theorem parse_error_message_cex :
    parseTrendingPage ([] : Markup) = .error noRepoRowsMessage ∧
    noRepoRowsMessage ≠ "no repository rows found" := ⟨rfl, by decide⟩

/-- Helper: a color captured by the regex attempt has 3 to 6 hex
digits. -/
theorem bgColorAt_shape (cs hex : List Char) (h : bgColorAt cs = some hex) :
    3 ≤ hex.length ∧ hex.length ≤ 6 ∧ hex.all isHexDigit = true := by
  unfold bgColorAt at h
  split at h
  · exact absurd h (by simp)
  · split at h
    · rename_i rest hstrip other tl hdrop
      by_cases hlen : 3 ≤ (tl.takeWhile isHexDigit).length
      · have h' : (tl.takeWhile isHexDigit).take 6 = hex := by simpa [hlen] using h
        subst h'
        refine ⟨?_, ?_, ?_⟩
        · rw [List.length_take]; omega
        · rw [List.length_take]; omega
        · rw [List.all_eq_true]
          intro x hx
          exact List.mem_takeWhile_imp (List.take_subset _ _ hx)
      · simp [hlen] at h
    · exact absurd h (by simp)

/-- Helper: a color captured anywhere in the style string has 3 to 6
hex digits. -/
theorem matchBgColor_shape (cs hex : List Char) (h : matchBgColor cs = some hex) :
    3 ≤ hex.length ∧ hex.length ≤ 6 ∧ hex.all isHexDigit = true := by
  induction cs with
  | nil => simp [matchBgColor] at h
  | cons c rest ih =>
    rw [matchBgColor] at h
    cases hb : bgColorAt (c :: rest) with
    | some hx =>
      rw [hb] at h
      simp only [Option.some.injEq] at h
      subst h
      exact bgColorAt_shape _ _ hb
    | none =>
      rw [hb] at h
      exact ih h

/-- C4 (amended): the color extracted by `parseLanguageColor` is either
absent or a string matching `#` followed by 3 to 6 hexadecimal digits
(the source regex is `#[0-9a-fA-F]{3,6}`, not exactly-3-or-6); any style
with no such pattern yields an absent color.  The exactly-3-or-6 rule of
the claim is enforced only by `sanitizeHexColor` (second conjunct), not
by the parser. -/
theorem language_color_spec (a : Article) :
    (parseLanguageColor a = none ∨
      ∃ s, parseLanguageColor a = some s ∧ hexColorLoose s = true) ∧
    (∀ s, sanitizeHexColor (some s) = if hexColorExact s then some s else none) := by
  constructor
  · cases hst : a.colorStyle with
    | none => exact Or.inl (by simp [parseLanguageColor, hst])
    | some styleOpt =>
      cases hm : matchBgColor (styleOpt.getD "").data with
      | none => exact Or.inl (by simp [parseLanguageColor, hst, hm])
      | some hex =>
        obtain ⟨h3, h6, hall⟩ := matchBgColor_shape _ _ hm
        refine Or.inr ⟨String.mk ('#' :: hex), by simp [parseLanguageColor, hst, hm], ?_⟩
        have hlist : (String.mk ('#' :: hex)).toList = '#' :: hex := rfl
        simp only [hexColorLoose, hlist]
        rw [List.all_eq_true] at hall
        simp only [Bool.and_eq_true, decide_eq_true_eq, List.all_eq_true]
        exact ⟨⟨h3, h6⟩, fun x hx => hall x hx⟩
  · intro s
    by_cases hs : s = ""
    · subst hs
      simp [sanitizeHexColor, show hexColorExact "" = false from rfl]
    · simp [sanitizeHexColor, hs]

/-- Counterexample for C4 as stated: a style carrying `#abcd` parses to
the four-digit color `some "#abcd"`, which does not match `#` plus
exactly 3 or exactly 6 hex digits (and is rejected by
`sanitizeHexColor`), yet is not treated as absent by the parser. -/
theorem language_color_cex :
    parseTrendingPage [fourDigitColorArticle] =
      .ok [{ repo_owner := "u", repo_name := "r", description := none, language := none,
             language_color := some "#abcd", total_stars := some 0, forks := some 0,
             stars_today := some 0 }] ∧
    hexColorExact "#abcd" = false ∧ sanitizeHexColor (some "#abcd") = none :=
  ⟨rfl, rfl, rfl⟩

/-- Helper: `isEmpty` is invariant under `reverse`. -/
theorem list_isEmpty_reverse (l : List Char) : l.reverse.isEmpty = l.isEmpty := by
  cases h : l.isEmpty <;> simp_all [List.isEmpty_iff]

/-- Helper for C5: the source parser coincides with the amended
description stated over the last-character decomposition. -/
theorem parseFormattedNumberChars_eq_amended (cs : List Char) :
    parseFormattedNumberChars cs = parseFormattedNumberAmendedChars cs := by
  cases h : cs.reverse with
  | nil =>
    have hcs : cs = [] := by simpa using congrArg List.reverse h
    subst hcs
    rfl
  | cons k rev =>
    have hcs : cs = rev.reverse ++ [k] := by
      have h2 := congrArg List.reverse h
      simpa using h2
    subst hcs
    rw [parseFormattedNumberChars, parseFormattedNumberAmendedChars, kSuffixNumeric]
    simp only [List.getLast?_concat, List.dropLast_concat, List.reverse_append,
      List.reverse_reverse, List.reverse_cons, List.reverse_nil, List.nil_append,
      List.singleton_append, List.all_reverse, list_isEmpty_reverse]

/-- C5 (amended): `parseFormattedNumber` trims its input; when the
trimmed string consists of digits and dots followed by a final `k`/`K`
it parses that float body, multiplies by 1000 and rounds half-up (a
digitless body propagates `NaN`); otherwise it strips all non-digit,
non-dot characters and parses the leading digit run, defaulting to 0;
and the six spec examples hold: "1,234" gives 1234, "51,595" gives
51595, "1.2k" gives 1200, "10k" gives 10000, "" gives 0, "abc" gives
0. -/
theorem formatted_number_spec :
    (∀ raw : String, parseFormattedNumber raw = parseFormattedNumberAmended raw) ∧
    parseFormattedNumber "1,234" = some 1234 ∧
    parseFormattedNumber "51,595" = some 51595 ∧
    parseFormattedNumber "1.2k" = some 1200 ∧
    parseFormattedNumber "10k" = some 10000 ∧
    parseFormattedNumber "" = some 0 ∧
    parseFormattedNumber "abc" = some 0 := by
  refine ⟨fun raw => parseFormattedNumberChars_eq_amended _, by decide, by decide, ?_, ?_,
    by decide, by decide⟩
  · show some (jsRound ((((1 : ℕ) : ℚ) + ((2 : ℕ) : ℚ) / (10 : ℚ) ^ (1 : ℕ)) * 1000)) =
      some 1200
    have hv : ((((1 : ℕ) : ℚ) + ((2 : ℕ) : ℚ) / (10 : ℚ) ^ (1 : ℕ)) * 1000) = 1200 := by
      norm_num
    rw [hv]
    norm_num [jsRound, Int.floor_eq_iff]
  · show some (jsRound ((((10 : ℕ) : ℚ) + ((0 : ℕ) : ℚ) / (10 : ℚ) ^ (0 : ℕ)) * 1000)) =
      some 10000
    have hv : ((((10 : ℕ) : ℚ) + ((0 : ℕ) : ℚ) / (10 : ℚ) ^ (0 : ℕ)) * 1000) = 10000 := by
      norm_num
    rw [hv]
    norm_num [jsRound, Int.floor_eq_iff]

/-- Counterexample for C5 as stated: "1,2k" ends in `k`, so the claimed
rule (parse the leading float and multiply by 1000) would give 1000, but
the source regex `^([\d.]+)k$` rejects the comma and the code takes the
cleaned-integer path, giving 12. -/
theorem formatted_number_cex :
    parseFormattedNumber "1,2k" = some 12 ∧
    parseFormattedNumberClaim "1,2k" = some 1000 := by
  refine ⟨by decide, ?_⟩
  show some (jsRound ((((1 : ℕ) : ℚ) + ((0 : ℕ) : ℚ) / (10 : ℚ) ^ (0 : ℕ)) * 1000)) =
    some 1000
  have hv : ((((1 : ℕ) : ℚ) + ((0 : ℕ) : ℚ) / (10 : ℚ) ^ (0 : ℕ)) * 1000) = 1000 := by
    norm_num
  rw [hv]
  norm_num [jsRound, Int.floor_eq_iff]

/-- Helper: a list sum is at most length times an upper bound. -/
theorem list_sum_le_length_mul (l : List ℕ) (n : ℕ) (h : ∀ x ∈ l, x ≤ n) :
    l.sum ≤ l.length * n := by
  induction l with
  | nil => simp
  | cons a as ih =>
    have h1 := ih (fun x hx => h x (List.mem_cons_of_mem _ hx))
    have h2 := h a (List.mem_cons_self a as)
    simp only [List.sum_cons, List.length_cons, Nat.succ_mul]
    omega

/-- Helper: sums of pointwise-added maps split. -/
theorem list_sum_map_add {α : Type} (l : List α) (f g : α → ℕ) :
    (l.map (fun x => f x + g x)).sum = (l.map f).sum + (l.map g).sum := by
  induction l with
  | nil => rfl
  | cons a as ih => simp only [List.map_cons, List.sum_cons, ih]; omega

/-- Helper: constant left factors pull out of list sums. -/
theorem list_sum_map_mul_left {α : Type} (l : List α) (b : ℕ) (f : α → ℕ) :
    (l.map (fun x => b * f x)).sum = b * (l.map f).sum := by
  induction l with
  | nil => simp
  | cons a as ih => simp only [List.map_cons, List.sum_cons, ih, Nat.mul_add]

/-- Helper: constant right factors pull out of list sums. -/
theorem list_sum_map_mul_right {α : Type} (l : List α) (b : ℕ) (f : α → ℕ) :
    (l.map (fun x => f x * b)).sum = (l.map f).sum * b := by
  induction l with
  | nil => simp
  | cons a as ih => simp only [List.map_cons, List.sum_cons, ih, Nat.add_mul]

/-- Helper: a sum of tenths is the sum divided by ten. -/
theorem list_sum_map_div10 (l : List ℕ) :
    (l.map (fun t : ℕ => (t : ℚ) / 10)).sum = ((l.sum : ℕ) : ℚ) / 10 := by
  induction l with
  | nil => simp
  | cons a as ih =>
    simp only [List.map_cons, List.sum_cons, ih]
    push_cast
    ring

/-- Helper: mapping a function of the entry over `enum` is mapping over
the list. -/
theorem enum_map_snd_comp {α β : Type} (l : List α) (h : α → β) :
    l.enum.map (fun p => h p.2) = l.map h := by
  have e1 : l.enum.map (fun p => h p.2) = (l.enum.map Prod.snd).map h :=
    (List.map_map h Prod.snd l.enum).symm
  rw [e1, List.enum_map_snd]

/-- Helper: mapping a function of the index over `enum` is mapping over
the index range. -/
theorem enum_map_fst_comp {α β : Type} (l : List α) (h : ℕ → β) :
    l.enum.map (fun p => h p.1) = (List.range l.length).map h := by
  have e1 : l.enum.map (fun p => h p.1) = (l.enum.map Prod.fst).map h :=
    (List.map_map h Prod.fst l.enum).symm
  rw [e1, List.enum_map_fst]

/-- Helper: the floor of the exact rational share equals natural
division. -/
theorem floor_rawTenths_eq (c T : ℕ) (hT : 0 < T) :
    ⌊rawTenths c T⌋ = ((c * 1000 / T : ℕ) : ℤ) := by
  have h1 : rawTenths c T = ((c * 1000 : ℕ) : ℚ) / ((T : ℕ) : ℚ) := by
    unfold rawTenths; push_cast; ring
  have h2 := Rat.floor_intCast_div_natCast ((c * 1000 : ℕ) : ℤ) T
  rw [h1]
  have h3 : (((c * 1000 : ℕ) : ℤ) : ℚ) = ((c * 1000 : ℕ) : ℚ) := by push_cast; ring
  rw [h3] at h2
  rw [h2]
  rfl

/-- Helper: `flooredTenths` is `count * 1000 / total` in `ℕ`. -/
theorem flooredTenths_eq_div (c T : ℕ) (hT : 0 < T) :
    flooredTenths c T = c * 1000 / T := by
  unfold flooredTenths
  rw [floor_rawTenths_eq c T hT]
  exact Int.toNat_natCast _

/-- Helper: stable insertion permutes. -/
theorem insertRemDesc_perm (x : ℕ × ℚ) (l : List (ℕ × ℚ)) :
    List.Perm (insertRemDesc x l) (x :: l) := by
  induction l with
  | nil => exact List.Perm.refl _
  | cons y ys ih =>
    by_cases h : y.2 ≤ x.2
    · simp only [insertRemDesc, if_pos h]
      exact List.Perm.refl _
    · simp only [insertRemDesc, if_neg h]
      exact (List.Perm.cons y ih).trans (List.Perm.swap x y ys)

/-- Helper: the stable descending sort permutes its input. -/
theorem sortRemDesc_perm (l : List (ℕ × ℚ)) : List.Perm (sortRemDesc l) l := by
  induction l with
  | nil => exact List.Perm.refl _
  | cons p rest ih =>
    exact (insertRemDesc_perm p (sortRemDesc rest)).trans (List.Perm.cons p ih)

/-- Helper: summing the membership indicator of a duplicate-free list
over its index range counts its length. -/
theorem sum_indicator_range (n : ℕ) (g : List ℕ) (hnd : g.Nodup) (hlt : ∀ x ∈ g, x < n) :
    ((List.range n).map (fun i => if i ∈ g then (1 : ℕ) else 0)).sum = g.length := by
  induction n generalizing g with
  | zero =>
    cases g with
    | nil => rfl
    | cons a as => exact absurd (hlt a (List.mem_cons_self a as)) (by omega)
  | succ n ih =>
    rw [List.range_succ, List.map_append, List.sum_append]
    by_cases hg : n ∈ g
    · have hmap : (List.range n).map (fun i => if i ∈ g then (1 : ℕ) else 0) =
          (List.range n).map (fun i => if i ∈ g.erase n then (1 : ℕ) else 0) := by
        apply List.map_eq_map_iff.mpr
        intro i hi
        have hin : i < n := List.mem_range.mp hi
        by_cases hig : i ∈ g
        · have h2 : i ∈ g.erase n := (List.Nodup.mem_erase_iff hnd).mpr ⟨by omega, hig⟩
          simp [hig, h2]
        · have h2 : i ∉ g.erase n := fun hc => hig ((List.Nodup.mem_erase_iff hnd).mp hc).2
          simp [hig, h2]
      have hlt' : ∀ x ∈ g.erase n, x < n := by
        intro x hx
        obtain ⟨hxn, hxg⟩ := (List.Nodup.mem_erase_iff hnd).mp hx
        have := hlt x hxg
        omega
      rw [hmap, ih (g.erase n) (hnd.erase n) hlt']
      have hpos : 0 < g.length := List.length_pos_of_mem hg
      simp only [List.map_cons, List.map_nil, List.sum_cons, List.sum_nil, if_pos hg]
      rw [List.length_erase_of_mem hg]
      omega
    · have hlt' : ∀ x ∈ g, x < n := by
        intro x hx
        have := hlt x hx
        rcases Nat.lt_succ_iff_lt_or_eq.mp this with h | h
        · exact h
        · exact absurd (h ▸ hx) hg
      rw [ih g hnd hlt']
      simp [hg]

/-- Helper: the extra-tenth index list is duplicate-free, within range,
and as long as the leftover (capped by the row count). -/
theorem percGive_facts (rows : List LangCountRow) (total : ℕ)
    (hT : 0 < total) (hsum : (rows.map (fun r => r.count)).sum = total)
    (hne : rows ≠ []) :
    (percGive rows total).Nodup ∧ (∀ x ∈ percGive rows total, x < rows.length) ∧
      (percGive rows total).length =
        min (1000 - (rows.map (fun r => flooredTenths r.count total)).sum) rows.length := by
  have hperm : List.Perm
      ((sortRemDesc ((rows.map (fun r => remTenths r.count total)).enum)).map Prod.fst)
      (List.range rows.length) := by
    have h1 := (sortRemDesc_perm ((rows.map (fun r => remTenths r.count total)).enum)).map
      Prod.fst
    rw [List.enum_map_fst, List.length_map] at h1
    exact h1
  have hgive : percGive rows total =
      ((sortRemDesc ((rows.map (fun r => remTenths r.count total)).enum)).map Prod.fst).take
        (1000 - (rows.map (fun r => flooredTenths r.count total)).sum) := by
    rw [percGive, List.map_take]
  refine ⟨?_, ?_, ?_⟩
  · rw [hgive]
    exact List.Nodup.sublist (List.take_sublist _ _)
      ((hperm.nodup_iff).mpr (List.nodup_range _))
  · intro x hx
    rw [hgive] at hx
    have hx2 := List.take_subset _ _ hx
    have := (hperm.mem_iff).mp hx2
    exact List.mem_range.mp this
  · rw [hgive, List.length_take, hperm.length_eq, List.length_range]

/-- Helper: the floored tenths sum to at most 1000, and to more than
`1000 - n` for `n` buckets (the leftover fits in one pass). -/
theorem floored_sum_bounds (rows : List LangCountRow) (total : ℕ)
    (hT : 0 < total) (hsum : (rows.map (fun r => r.count)).sum = total)
    (hne : rows ≠ []) :
    (rows.map (fun r => flooredTenths r.count total)).sum ≤ 1000 ∧
      1000 < (rows.map (fun r => flooredTenths r.count total)).sum + rows.length := by
  have hfl : rows.map (fun r => flooredTenths r.count total) =
      rows.map (fun r => r.count * 1000 / total) :=
    List.map_eq_map_iff.mpr (fun r _ => flooredTenths_eq_div r.count total hT)
  rw [hfl]
  have hkey : total * (rows.map (fun r => r.count * 1000 / total)).sum +
      (rows.map (fun r => r.count * 1000 % total)).sum = 1000 * total := by
    have hpt : rows.map (fun r => total * (r.count * 1000 / total) + r.count * 1000 % total) =
        rows.map (fun r => r.count * 1000) :=
      List.map_eq_map_iff.mpr (fun r _ => Nat.div_add_mod (r.count * 1000) total)
    have hsplit := list_sum_map_add rows (fun r => total * (r.count * 1000 / total))
      (fun r => r.count * 1000 % total)
    rw [hpt] at hsplit
    rw [← list_sum_map_mul_left rows total (fun r => r.count * 1000 / total), ← hsplit,
      list_sum_map_mul_right rows 1000 (fun r => r.count), hsum, Nat.mul_comm]
  have hmods : (rows.map (fun r => r.count * 1000 % total)).sum + rows.length ≤
      rows.length * total := by
    have h1 : (rows.map (fun r => r.count * 1000 % total + 1)).sum ≤
        (rows.map (fun r => r.count * 1000 % total + 1)).length * total := by
      apply list_sum_le_length_mul
      intro x hx
      obtain ⟨r, _, rfl⟩ := List.mem_map.mp hx
      have := Nat.mod_lt (r.count * 1000) hT
      omega
    have h2 := list_sum_map_add rows (fun r => r.count * 1000 % total) (fun _ => 1)
    have h3 : (rows.map (fun _ => (1 : ℕ))).sum = rows.length := by
      induction rows with
      | nil => rfl
      | cons a as ih =>
        simp [ih]
        omega
    rw [h2, h3, List.length_map] at h1
    exact h1
  have hlen : 0 < rows.length := List.length_pos.mpr hne
  constructor
  · have hle : total * (rows.map (fun r => r.count * 1000 / total)).sum ≤ 1000 * total :=
      Nat.le.intro hkey
    rw [Nat.mul_comm 1000 total] at hle
    exact Nat.le_of_mul_le_mul_left hle hT
  · have hMlt : (rows.map (fun r => r.count * 1000 % total)).sum < total * rows.length := by
      have hstep : (rows.map (fun r => r.count * 1000 % total)).sum <
          (rows.map (fun r => r.count * 1000 % total)).sum + rows.length := by omega
      refine lt_of_lt_of_le hstep ?_
      rw [Nat.mul_comm total rows.length]
      exact hmods
    have h9 : total * 1000 <
        total * ((rows.map (fun r => r.count * 1000 / total)).sum + rows.length) := by
      have e1 : total * ((rows.map (fun r => r.count * 1000 / total)).sum + rows.length) =
          total * (rows.map (fun r => r.count * 1000 / total)).sum + total * rows.length := by
        ring
      have e2 : total * 1000 =
          total * (rows.map (fun r => r.count * 1000 / total)).sum +
            (rows.map (fun r => r.count * 1000 % total)).sum := by
        rw [Nat.mul_comm total 1000, ← hkey]
      rw [e1, e2]
      exact Nat.add_lt_add_left hMlt _
    exact Nat.lt_of_mul_lt_mul_left h9

/-- Helper: after distributing the leftover, the tenths sum to exactly
1000. -/
theorem perc_tenths_sum (rows : List LangCountRow) (total : ℕ)
    (hT : 0 < total) (hsum : (rows.map (fun r => r.count)).sum = total)
    (hne : rows ≠ []) :
    (rows.enum.map (fun p => flooredTenths p.2.count total +
        (if p.1 ∈ percGive rows total then 1 else 0))).sum = 1000 := by
  rw [list_sum_map_add rows.enum (fun p => flooredTenths p.2.count total)
    (fun p => if p.1 ∈ percGive rows total then 1 else 0)]
  rw [enum_map_snd_comp rows (fun r => flooredTenths r.count total)]
  rw [enum_map_fst_comp rows (fun i => if i ∈ percGive rows total then (1 : ℕ) else 0)]
  obtain ⟨hnd, hlt, hlen⟩ := percGive_facts rows total hT hsum hne
  rw [sum_indicator_range rows.length (percGive rows total) hnd hlt, hlen]
  obtain ⟨hb1, hb2⟩ := floored_sum_bounds rows total hT hsum hne
  omega

/-- Helper: the percentages returned by `applyPercentages` sum to
exactly 100 for any rows with a positive total count. -/
theorem applyPercentages_sum_100 (rows : List LangCountRow) (hne : rows ≠ [])
    (hpos : 0 < (rows.map (fun r => r.count)).sum) :
    ((applyPercentages rows).map (fun d => d.percentage)).sum = 100 := by
  have htne : ¬ (rows.map (fun r => r.count)).sum = 0 := by omega
  have hstep : (applyPercentages rows).map (fun d => d.percentage) =
      (rows.enum.map (fun p => flooredTenths p.2.count ((rows.map (fun r => r.count)).sum) +
        (if p.1 ∈ percGive rows ((rows.map (fun r => r.count)).sum) then 1 else 0))).map
        (fun t : ℕ => (t : ℚ) / 10) := by
    simp only [applyPercentages, if_neg htne, List.map_map]
    rfl
  rw [hstep, list_sum_map_div10,
    perc_tenths_sum rows ((rows.map (fun r => r.count)).sum) hpos rfl hne]
  norm_num

/-- Helper: three buckets of count 1 each give percentages
33.4, 33.3, 33.3 (in the input order the source produces). -/
theorem applyPercentages_example :
    (applyPercentages threeEvenRows).map (fun d => d.percentage) =
      [334 / 10, 333 / 10, 333 / 10] := by
  have hf : flooredTenths 1 3 = 333 := by
    rw [flooredTenths_eq_div 1 3 (by norm_num)]
  have hrem : remTenths 1 3 = 1 / 3 := by
    unfold remTenths
    rw [floor_rawTenths_eq 1 3 (by norm_num)]
    unfold rawTenths
    norm_num
  have henum : ∀ {α : Type} (a b c : α), ([a, b, c] : List α).enum = [(0, a), (1, b), (2, c)] :=
    fun a b c => rfl
  simp only [threeEvenRows, applyPercentages, percGive, List.map_cons, List.map_nil,
    List.sum_cons, List.sum_nil, hf, hrem, henum, sortRemDesc, List.foldr_cons, List.foldr_nil,
    insertRemDesc, le_refl, if_true]
  norm_num [hf]

/-- C1: for every non-empty bucket list with positive counts, the
largest-remainder computation of `applyPercentages` returns percentages
summing to exactly 100.0; in particular three buckets of count 1 each
yield exactly 33.4, 33.3, 33.3. -/
theorem language_distribution_spec :
    (∀ rows : List LangCountRow, rows ≠ [] → (∀ r ∈ rows, 0 < r.count) →
      ((applyPercentages rows).map (fun d => d.percentage)).sum = 100) ∧
    (applyPercentages threeEvenRows).map (fun d => d.percentage) =
      [334 / 10, 333 / 10, 333 / 10] := by
  constructor
  · intro rows hne hpos
    apply applyPercentages_sum_100 rows hne
    cases rows with
    | nil => exact absurd rfl hne
    | cons r rs =>
      have := hpos r (List.mem_cons_self r rs)
      simp only [List.map_cons, List.sum_cons]
      omega
  · exact applyPercentages_example

/-- Witness for C1 at the three even buckets. -/
theorem language_distribution_spec_witness :
    ((applyPercentages threeEvenRows).map (fun d => d.percentage)).sum = 100 :=
  language_distribution_spec.1 threeEvenRows (by simp [threeEvenRows]) (by decide)

/-- C10: for a non-empty row list with positive total count,
`applyPercentages` returns one entry per input row in input order with
the language, color and count fields unchanged, and every returned
percentage is a non-negative integer multiple of one tenth. -/
theorem applyPercentages_frame (rows : List LangCountRow) (hne : rows ≠ [])
    (hpos : 0 < (rows.map (fun r => r.count)).sum) :
    (applyPercentages rows).length = rows.length ∧
    (applyPercentages rows).map (fun d => d.language) = rows.map (fun r => r.language) ∧
    (applyPercentages rows).map (fun d => d.color) = rows.map (fun r => r.color) ∧
    (applyPercentages rows).map (fun d => d.count) = rows.map (fun r => r.count) ∧
    ∀ d ∈ applyPercentages rows, 0 ≤ d.percentage ∧ ∃ k : ℕ, d.percentage = (k : ℚ) / 10 := by
  have htne : ¬ (rows.map (fun r => r.count)).sum = 0 := by omega
  refine ⟨?_, ?_, ?_, ?_, ?_⟩
  · simp only [applyPercentages, if_neg htne, List.length_map, List.enum_length]
  · simp only [applyPercentages, if_neg htne, List.map_map]
    exact enum_map_snd_comp rows (fun r => r.language)
  · simp only [applyPercentages, if_neg htne, List.map_map]
    exact enum_map_snd_comp rows (fun r => r.color)
  · simp only [applyPercentages, if_neg htne, List.map_map]
    exact enum_map_snd_comp rows (fun r => r.count)
  · intro d hd
    simp only [applyPercentages, if_neg htne] at hd
    obtain ⟨p, hp, rfl⟩ := List.mem_map.mp hd
    refine ⟨by positivity, ⟨_, rfl⟩⟩

/-- Witness for C10 at the three even buckets. -/
theorem applyPercentages_frame_witness :
    (applyPercentages threeEvenRows).length = 3 ∧
    (applyPercentages threeEvenRows).map (fun d => d.language) = ["Rust", "Go", "Zig"] := by
  have h := applyPercentages_frame threeEvenRows (by simp [threeEvenRows]) (by decide)
  exact ⟨by rw [h.1]; rfl, by rw [h.2.1]; rfl⟩
